import Mathlib

/-!
Verification of the SVG-to-STL puzzle generator's geometry pipeline.

The development shallowly embeds the repository's Python sources:
  * `puzzle_processor/geometry.py` — `discretize_path`, `extend_line`;
  * `puzzle_processor/core.py`     — `PuzzleProcessor.run` (the stage from the
    polygonize result to the STL write);
  * `puzzle_processor/exporter.py` / `generate_stl.py` — `write_stl`,
    `process_puzzle`.

2-D points are pairs of rationals (the Python floats are idealized as exact
arithmetic).  Calls into the external `shapely` / `svgpathtools` libraries
(segment evaluation, buffering, triangulation, containment) are modelled as
data carried by the input structures: a segment carries its parametric
evaluator and arclength, a polygonized face carries the outcome of its
`buffer` call, a buffered piece carries the outcome of its `triangulate`
call, its `contains`-test and its boundary rings.
-/

/-! ### Basic geometric carriers -/

/-- A 2-D point, as stored in `current_points` (a pair of floats in Python). -/
abbrev Pt2 := ℚ × ℚ

/-- A 3-D vertex `(x, y, z)`. -/
abbrev Pt3 := ℚ × ℚ × ℚ

/-- A 2-D triangle: the first three coordinates of `tri.exterior.coords`. -/
abbrev Tri2 := Pt2 × Pt2 × Pt2

/-- A 3-D triangle `(v1, v2, v3)`, the unit appended to `all_triangles`. -/
abbrev Tri3 := Pt3 × Pt3 × Pt3

/-! ### Curve discretizer (`geometry.py`, `discretize_path`)

`round(x, 4)` in Python rounds half to even; `int(x)` truncates toward zero.
Both are reproduced exactly on `ℚ`.  The discontinuity test
`abs(segment.start - last_p) > 1e-3` compares a complex modulus, which we
express by comparing the squared distance against `(1/1000)^2` — equivalent,
since both sides are nonnegative. -/

/-- Round a rational to the nearest integer, ties to even: Python's `round`. -/
def roundHalfEven (q : ℚ) : ℤ :=
  let f := ⌊q⌋
  let r := q - f
  if r < 1/2 then f
  else if 1/2 < r then f + 1
  else if f % 2 = 0 then f else f + 1

/-- Python's `round(x, 4)`: round to 4 decimal digits, ties to even. -/
def round4 (x : ℚ) : ℚ := (roundHalfEven (x * 10000) : ℚ) / 10000

/-- Coordinate-wise `round(·, 4)` applied to a sampled point. -/
def round4Pt (p : Pt2) : Pt2 := (round4 p.1, round4 p.2)

/-- Python's `int(·)` applied to a rational: truncation toward zero. -/
def pyInt (q : ℚ) : ℤ := if 0 ≤ q then ⌊q⌋ else -⌊-q⌋

/-- Squared Euclidean distance between two points (used for the
`abs(segment.start - last_p) > 1e-3` test on complex numbers). -/
def distSq (a b : Pt2) : ℚ := (a.1 - b.1)^2 + (a.2 - b.2)^2

/-- A path segment as the discretizer consumes it: `segment.start`,
`segment.point(t)` and `segment.length()` of `svgpathtools`, carried as data
(the library's curve evaluation is external to this repository). -/
structure Seg where
  start : Pt2
  point : ℚ → Pt2
  length : ℚ

/-- `count = max(2, int(length / density))` — the per-segment sample count. -/
def sampleCount (length density : ℚ) : ℕ :=
  max 2 (pyInt (length / density)).toNat

/-- The points appended by the loop `for i in range(1, count + 1)`:
`round(segment.point(i / count), 4)` for `i = 1, …, count`. -/
def segSamples (seg : Seg) (density : ℚ) : List Pt2 :=
  (List.range (sampleCount seg.length density)).map fun i =>
    round4Pt (seg.point (((i + 1 : ℕ) : ℚ) / (sampleCount seg.length density : ℚ)))

/-- The discretizer's running state: `current_points` and the flushed
`lines` list. -/
structure DiscState where
  current : List Pt2
  lines : List (List Pt2)
deriving DecidableEq

/-- The discontinuity check at the top of the segment loop: if
`current_points` is nonempty and the segment's start is farther than `1e-3`
from its last point, flush `current_points` (kept only when it has at least
2 points) and reset it. -/
def flushCheck (st : DiscState) (seg : Seg) : DiscState :=
  match st.current.getLast? with
  | none => st
  | some lastP =>
      if (1/1000)^2 < distSq seg.start lastP then
        if 2 ≤ st.current.length then
          { current := [], lines := st.lines ++ [st.current] }
        else
          { current := [], lines := st.lines }
      else st

/-- One iteration of `for segment in path`: the discontinuity check, then the
`length < 1e-5` skip, then sampling (prepending `round(point(0), 4)` when a
new polyline starts). -/
def discStep (density : ℚ) (st : DiscState) (seg : Seg) : DiscState :=
  let st1 := flushCheck st seg
  if seg.length < 1/100000 then st1
  else
    let withStart :=
      if st1.current.isEmpty then [round4Pt (seg.point 0)] else st1.current
    { st1 with current := withStart ++ segSamples seg density }

/-- `discretize_path(path, density)` from `geometry.py`: fold the segment
loop over the path, then flush the final polyline when it has ≥ 2 points. -/
def discretize_path (path : List Seg) (density : ℚ) : List (List Pt2) :=
  let st := path.foldl (discStep density) ⟨[], []⟩
  if 2 ≤ st.current.length then st.lines ++ [st.current] else st.lines

/-! ### Extruder and per-face pipeline (`core.py` lines 98–152)

A polygonized face `poly` is consumed only through external `shapely` calls;
we therefore carry the outcomes of those calls as data.  `Piece` is one
polygon produced by `poly.buffer(tolerance)`: it records the outcome of
`triangulate(piece)` (which may raise), the Boolean test
`piece.contains(tri.centroid)` and the coordinate lists of
`[piece.exterior] + list(piece.interiors)`. -/

/-- One buffered polygon, with the outcomes of the external calls the
generation loop performs on it. -/
structure Piece where
  triangulation : Except String (List Tri2)
  keep : Tri2 → Bool
  rings : List (List Pt2)

instance : Inhabited Piece := ⟨⟨.ok [], fun _ => false, []⟩⟩

/-- The result of `poly.buffer(self.tolerance)`: empty, a single `Polygon`,
or a `MultiPolygon`. -/
inductive Buffered where
  | empty
  | polygon (p : Piece)
  | multiPolygon (ps : List Piece)

/-- A face extracted by `polygonize`, carrying its `buffer` outcome and its
`area` (printed in the degenerate-topology warning branch). -/
structure Face where
  buffered : Buffered
  area : ℚ

instance : Inhabited Face := ⟨⟨.empty, 0⟩⟩

/-- `target_polys`: `[]` for an empty buffer result, the single polygon, or
the parts of a `MultiPolygon`. -/
def targetPolys : Buffered → List Piece
  | .empty => []
  | .polygon p => [p]
  | .multiPolygon ps => ps

/-- Top-cap triangle at `z = thickness`, vertex order `(v1, v2, v3)`. -/
def topTri (th : ℚ) (t : Tri2) : Tri3 :=
  ((t.1.1, t.1.2, th), (t.2.1.1, t.2.1.2, th), (t.2.2.1, t.2.2.2, th))

/-- Bottom-cap triangle at `z = 0`, vertex order `(v1, v3, v2)`. -/
def botTri (t : Tri2) : Tri3 :=
  ((t.1.1, t.1.2, 0), (t.2.2.1, t.2.2.2, 0), (t.2.1.1, t.2.1.2, 0))

/-- First wall triangle for a boundary edge: `(p1@0, p2@0, p2@thickness)`. -/
def wallTriA (th : ℚ) (p1 p2 : Pt2) : Tri3 :=
  ((p1.1, p1.2, 0), (p2.1, p2.2, 0), (p2.1, p2.2, th))

/-- Second wall triangle for a boundary edge: `(p1@0, p2@thickness, p1@thickness)`. -/
def wallTriB (th : ℚ) (p1 p2 : Pt2) : Tri3 :=
  ((p1.1, p1.2, 0), (p2.1, p2.2, th), (p1.1, p1.2, th))

/-- The cap loop `for tri in mesh`: when the centroid test passes, append the
top triangle then the bottom triangle. -/
def capTriangles (th : ℚ) (keep : Tri2 → Bool) (mesh : List Tri2) : List Tri3 :=
  mesh.foldl (fun acc t => if keep t then acc ++ [topTri th t, botTri t] else acc) []

/-- The wall loop `for j in range(len(coords) - 1)` over one boundary ring. -/
def ringWalls (th : ℚ) (ring : List Pt2) : List Tri3 :=
  (List.range (ring.length - 1)).foldl
    (fun acc j =>
      acc ++ [wallTriA th (ring.getD j (0, 0)) (ring.getD (j + 1) (0, 0)),
              wallTriB th (ring.getD j (0, 0)) (ring.getD (j + 1) (0, 0))]) []

/-- All triangles one buffered piece appends to `all_triangles`: the cap loop
over the triangulation, then the wall loops over
`[piece.exterior] + list(piece.interiors)`. -/
def extrudePiece (th : ℚ) (p : Piece) (mesh : List Tri2) : List Tri3 :=
  capTriangles th p.keep mesh ++
    p.rings.foldl (fun acc ring => acc ++ ringWalls th ring) []

/-- Log lines printed by the stage of the pipeline modelled here (each
constructor corresponds to one `print` in the source). -/
inductive LogMsg where
  | foundPieces (n : ℕ)
  | warnDegenerate
  | polygonArea (a : ℚ)
  | triangulationFailed (i : ℕ) (e : String)
  | writingTriangles (n : ℕ)
  | successSaved
deriving DecidableEq

/-- Processing of one buffered piece inside face `i`: a triangulation error
is printed and the piece skipped; otherwise the piece's triangles are
appended. -/
def processPiece (th : ℚ) (i : ℕ) (st : List Tri3 × List LogMsg) (p : Piece) :
    List Tri3 × List LogMsg :=
  match p.triangulation with
  | .error e => (st.1, st.2 ++ [.triangulationFailed i e])
  | .ok mesh => (st.1 ++ extrudePiece th p mesh, st.2)

/-- Processing of one enumerated face: buffer, then the loop over
`target_polys`. -/
def processFace (th : ℚ) (st : List Tri3 × List LogMsg) (ip : ℕ × Face) :
    List Tri3 × List LogMsg :=
  (targetPolys ip.2.buffered).foldl (processPiece th ip.1) st

/-- The whole generation loop `for i, poly in enumerate(polygons)`: the
accumulated `all_triangles` and the warnings printed along the way. -/
def generateTriangles (th : ℚ) (faces : List Face) : List Tri3 × List LogMsg :=
  faces.enum.foldl (processFace th) ([], [])

/-! ### Mesh serializer (`exporter.py` / `generate_stl.py`, `write_stl`)

Byte strings are lists of naturals.  The IEEE-754 float32 encoding performed
by `struct.pack('<3f', …)` is not reproduced bit-for-bit; instead the
serializer is parameterized by two 4-byte encoders, one for the rational
vertex coordinates and one for the real normal components.  The normal
itself is computed exactly as in the source: the cross product of the two
edge vectors, normalized unless its Euclidean norm is zero. -/

/-- Componentwise difference of 3-D vertices (`v2 - v1` on numpy arrays). -/
def vsub3 (a b : Pt3) : Pt3 := (a.1 - b.1, a.2.1 - b.2.1, a.2.2 - b.2.2)

/-- `np.cross` of two 3-D vectors. -/
def cross3 (u v : Pt3) : Pt3 :=
  (u.2.1 * v.2.2 - u.2.2 * v.2.1,
   u.2.2 * v.1 - u.1 * v.2.2,
   u.1 * v.2.1 - u.2.1 * v.1)

/-- The unnormalized facet normal `np.cross(v2 - v1, v3 - v1)`. -/
def triNormalRaw (t : Tri3) : Pt3 := cross3 (vsub3 t.2.1 t.1) (vsub3 t.2.2 t.1)

/-- Squared Euclidean norm of a 3-D vector over `ℚ`. -/
def sqNorm3 (v : Pt3) : ℚ := v.1^2 + v.2.1^2 + v.2.2^2

/-- Squared Euclidean norm of a 3-D vector over `ℝ`. -/
def sqNorm3R (v : ℝ × ℝ × ℝ) : ℝ := v.1^2 + v.2.1^2 + v.2.2^2

/-- The normal written per triangle: `normal / np.linalg.norm(normal)`, or
the zero vector when that norm is zero.  Exact real arithmetic stands in for
float arithmetic, hence the `Real.sqrt`. -/
noncomputable def stlNormal (t : Tri3) : ℝ × ℝ × ℝ :=
  let c := triNormalRaw t
  let n : ℝ := Real.sqrt ((sqNorm3 c : ℚ) : ℝ)
  if n = 0 then (0, 0, 0)
  else ((c.1 : ℝ) / n, (c.2.1 : ℝ) / n, (c.2.2 : ℝ) / n)

/-- `struct.pack('<I', n)`: the 4 little-endian bytes of a 32-bit count. -/
def le32 (n : ℕ) : List ℕ :=
  [n % 256, n / 256 % 256, n / 256^2 % 256, n / 256^3 % 256]

/-- Value denoted by 4 little-endian bytes (to state that the count field
represents `N`). -/
def val32 (l : List ℕ) : ℕ :=
  l.getD 0 0 + 256 * (l.getD 1 0 + 256 * (l.getD 2 0 + 256 * l.getD 3 0))

/-- The 50-byte record of one triangle: normal, the three vertices in the
order given, then the 2-byte attribute field `struct.pack('<H', 0)`. -/
noncomputable def packTriangle (enc : ℚ → List ℕ) (encR : ℝ → List ℕ) (t : Tri3) :
    List ℕ :=
  encR (stlNormal t).1 ++ encR (stlNormal t).2.1 ++ encR (stlNormal t).2.2 ++
  enc t.1.1 ++ enc t.1.2.1 ++ enc t.1.2.2 ++
  enc t.2.1.1 ++ enc t.2.1.2.1 ++ enc t.2.1.2.2 ++
  enc t.2.2.1 ++ enc t.2.2.2.1 ++ enc t.2.2.2.2 ++
  [0, 0]

/-- `write_stl(triangles, filename)`: the byte string written to the file —
an 80-byte zero header, the little-endian triangle count, then one 50-byte
record per triangle. -/
noncomputable def write_stl (enc : ℚ → List ℕ) (encR : ℝ → List ℕ)
    (triangles : List Tri3) : List ℕ :=
  List.replicate 80 0 ++ le32 triangles.length ++
    triangles.flatMap (packTriangle enc encR)

/-! ### Run tail of the two pipelines (`core.py` lines 88–157,
`generate_stl.py` lines 141–209)

Both are modelled from the point where `polygonize` has produced the face
list.  `PuzzleProcessor.run` always proceeds to mesh generation and to
`write_stl`; `process_puzzle` returns early — writing nothing — when at most
one polygon was found. -/

/-- Outcome of a pipeline run: the bytes written to the output file (if the
run reached `write_stl`) and the log lines printed. -/
structure RunOutput where
  written : Option (List ℕ)
  logs : List LogMsg

/-- The warning block `if len(polygons) <= 1`, including the polygon-area
print for exactly one polygon. -/
def degenLogs (faces : List Face) : List LogMsg :=
  if faces.length ≤ 1 then
    .warnDegenerate ::
      (if faces.length = 1 then [.polygonArea (faces.headI).area] else [])
  else []

/-- `PuzzleProcessor.run` from the `polygonize` result onward: warn on 0 or 1
faces but continue, generate the mesh, and always write the STL. -/
noncomputable def core_run_post (th : ℚ) (enc : ℚ → List ℕ) (encR : ℝ → List ℕ)
    (faces : List Face) : RunOutput :=
  let gen := generateTriangles th faces
  { written := some (write_stl enc encR gen.1)
    logs := [.foundPieces faces.length] ++ degenLogs faces ++ gen.2 ++
      [.writingTriangles gen.1.length, .successSaved] }

/-- `process_puzzle` from the `polygonize` result onward: on 0 or 1 faces it
prints the same warning and returns early, never reaching mesh generation or
`write_stl`. -/
noncomputable def process_puzzle_post (th : ℚ) (enc : ℚ → List ℕ)
    (encR : ℝ → List ℕ) (faces : List Face) : RunOutput :=
  if faces.length ≤ 1 then
    { written := none, logs := [.foundPieces faces.length] ++ degenLogs faces }
  else
    let gen := generateTriangles th faces
    { written := some (write_stl enc encR gen.1)
      logs := [.foundPieces faces.length] ++ gen.2 ++
        [.writingTriangles gen.1.length, .successSaved] }

/-! ### Fold characterizations of the generation loops -/

/-- A left fold that only appends to its accumulator is a `flatMap`. -/
theorem foldl_append_eq {α β : Type} (f : α → List β) :
    ∀ (l : List α) (init : List β),
      l.foldl (fun acc x => acc ++ f x) init = init ++ l.flatMap f := by
  intro l
  induction l with
  | nil => intro init; simp
  | cons a t ih => intro init; simp [ih]

/-- A conditional `flatMap` is a `flatMap` over the filtered list. -/
theorem flatMap_ite_filter {α β : Type} (p : α → Bool) (g : α → List β) :
    ∀ l : List α,
      (l.flatMap fun t => if p t then g t else []) = (l.filter p).flatMap g := by
  intro l
  induction l with
  | nil => simp
  | cons a t ih =>
      by_cases h : p a <;> simp [List.filter_cons, h, ih]

/-- Summing a constant length over a `flatMap` doubles the list length. -/
theorem length_flatMap_two {α β : Type} (g : α → List β)
    (h : ∀ a, (g a).length = 2) (l : List α) :
    (l.flatMap g).length = 2 * l.length := by
  induction l with
  | nil => simp
  | cons a t ih => simp [h, ih]; ring

/-- The cap loop equals the top/bottom pairs of the centroid-kept triangles. -/
theorem capTriangles_eq (th : ℚ) (keep : Tri2 → Bool) (mesh : List Tri2) :
    capTriangles th keep mesh =
      (mesh.filter keep).flatMap fun t => [topTri th t, botTri t] := by
  have go : ∀ (l : List Tri2) (init : List Tri3),
      l.foldl (fun acc t => if keep t then acc ++ [topTri th t, botTri t] else acc)
          init =
        init ++ l.flatMap (fun t => if keep t then [topTri th t, botTri t] else []) := by
    intro l
    induction l with
    | nil => intro init; simp
    | cons a t ih =>
        intro init
        by_cases h : keep a <;> simp [h, ih]
  rw [capTriangles, go, flatMap_ite_filter]
  simp

/-- The wall loop over one ring, as a `flatMap` over its consecutive edges. -/
theorem ringWalls_eq (th : ℚ) (ring : List Pt2) :
    ringWalls th ring =
      (List.range (ring.length - 1)).flatMap fun j =>
        [wallTriA th (ring.getD j (0, 0)) (ring.getD (j + 1) (0, 0)),
         wallTriB th (ring.getD j (0, 0)) (ring.getD (j + 1) (0, 0))] := by
  rw [ringWalls, foldl_append_eq]
  simp

/-- The triangles one piece appends, as kept caps followed by ring walls. -/
theorem extrudePiece_eq (th : ℚ) (p : Piece) (mesh : List Tri2) :
    extrudePiece th p mesh =
      ((mesh.filter p.keep).flatMap fun t => [topTri th t, botTri t]) ++
        p.rings.flatMap (ringWalls th) := by
  rw [extrudePiece, capTriangles_eq, foldl_append_eq]
  simp

/-- Length of one piece's contribution: `2k + 2m`. -/
theorem extrudePiece_length (th : ℚ) (p : Piece) (mesh : List Tri2) :
    (extrudePiece th p mesh).length =
      2 * (mesh.filter p.keep).length +
        2 * (p.rings.map fun ring => ring.length - 1).sum := by
  rw [extrudePiece_eq]
  rw [List.length_append]
  rw [length_flatMap_two (fun t => [topTri th t, botTri t]) (fun a => rfl)]
  congr 1
  induction p.rings with
  | nil => simp
  | cons r rs ih =>
      simp only [List.flatMap_cons, List.map_cons, List.length_append, ih,
        List.sum_cons, ringWalls_eq]
      rw [length_flatMap_two
        (fun j => [wallTriA th (r.getD j (0, 0)) (r.getD (j + 1) (0, 0)),
                   wallTriB th (r.getD j (0, 0)) (r.getD (j + 1) (0, 0))])
        (fun a => rfl)]
      simp [Nat.mul_add]

/-- C1: for every offset piece the extruder emits, per centroid-kept interior
triangle `(v1,v2,v3)`, exactly one top triangle `(v1,v2,v3)` at `z=thickness`
and one bottom triangle `(v1,v3,v2)` at `z=0` (discarding all other
candidates), then per consecutive boundary edge `(p1,p2)` of every ring
exactly the walls `(p1@0,p2@0,p2@thickness)` and `(p1@0,p2@thickness,p1@thickness)`,
contributing exactly `2k + 2m` triangles in that order. -/
theorem C1_extruder_per_piece (th : ℚ) (p : Piece) (mesh : List Tri2) :
    extrudePiece th p mesh =
      ((mesh.filter p.keep).flatMap fun t => [topTri th t, botTri t]) ++
        (p.rings.flatMap fun ring =>
          (List.range (ring.length - 1)).flatMap fun j =>
            [wallTriA th (ring.getD j (0, 0)) (ring.getD (j + 1) (0, 0)),
             wallTriB th (ring.getD j (0, 0)) (ring.getD (j + 1) (0, 0))]) ∧
    (extrudePiece th p mesh).length =
      2 * (mesh.filter p.keep).length +
        2 * (p.rings.map fun ring => ring.length - 1).sum := by
  refine ⟨?_, extrudePiece_length th p mesh⟩
  rw [extrudePiece_eq]
  have h : ringWalls th = fun ring =>
      (List.range (ring.length - 1)).flatMap fun j =>
        [wallTriA th (ring.getD j (0, 0)) (ring.getD (j + 1) (0, 0)),
         wallTriB th (ring.getD j (0, 0)) (ring.getD (j + 1) (0, 0))] :=
    funext fun r => ringWalls_eq th r
  rw [h]

/-! ### Per-face summaries of the generation loop -/

/-- Triangles contributed by one buffered piece (empty on triangulation
failure). -/
def pieceTris (th : ℚ) (p : Piece) : List Tri3 :=
  match p.triangulation with
  | .ok mesh => extrudePiece th p mesh
  | .error _ => []

/-- Warnings printed for one buffered piece inside face `i`. -/
def pieceLogs (i : ℕ) (p : Piece) : List LogMsg :=
  match p.triangulation with
  | .ok _ => []
  | .error e => [.triangulationFailed i e]

/-- Triangles contributed by one enumerated face. -/
def faceTris (th : ℚ) (ip : ℕ × Face) : List Tri3 :=
  (targetPolys ip.2.buffered).flatMap (pieceTris th)

/-- Warnings printed for one enumerated face. -/
def faceLogs (ip : ℕ × Face) : List LogMsg :=
  (targetPolys ip.2.buffered).flatMap (pieceLogs ip.1)

/-- One face's processing appends its contribution to both components of the
accumulator. -/
theorem processFace_eq (th : ℚ) (st : List Tri3 × List LogMsg) (ip : ℕ × Face) :
    processFace th st ip = (st.1 ++ faceTris th ip, st.2 ++ faceLogs ip) := by
  rw [processFace, faceTris, faceLogs]
  generalize targetPolys ip.2.buffered = ps
  induction ps generalizing st with
  | nil => simp
  | cons p rest ih =>
      rcases st with ⟨tris, logs⟩
      rcases hp : p.triangulation with e | mesh <;>
        simp [processPiece, hp, ih, pieceTris, pieceLogs]

/-- The generation loop is the concatenation of the per-face contributions,
in face order; no face is ever skipped by an earlier face's failure. -/
theorem generateTriangles_eq (th : ℚ) (faces : List Face) :
    generateTriangles th faces =
      (faces.enum.flatMap (faceTris th), faces.enum.flatMap faceLogs) := by
  rw [generateTriangles]
  have go : ∀ (l : List (ℕ × Face)) (st : List Tri3 × List LogMsg),
      l.foldl (processFace th) st =
        (st.1 ++ l.flatMap (faceTris th), st.2 ++ l.flatMap faceLogs) := by
    intro l
    induction l with
    | nil => intro st; simp
    | cons ip rest ih => intro st; simp [processFace_eq, ih]
  simp [go]

/-- Every vertex of every triangle one piece emits lies at `z = 0` or
`z = thickness`. -/
theorem extrudePiece_z (th : ℚ) (p : Piece) (mesh : List Tri2) :
    ∀ t ∈ extrudePiece th p mesh,
      (t.1.2.2 = 0 ∨ t.1.2.2 = th) ∧ (t.2.1.2.2 = 0 ∨ t.2.1.2.2 = th) ∧
        (t.2.2.2.2 = 0 ∨ t.2.2.2.2 = th) := by
  intro t ht
  rw [extrudePiece_eq] at ht
  rcases List.mem_append.mp ht with h | h
  · rcases List.mem_flatMap.mp h with ⟨s, _, hs⟩
    simp only [List.mem_cons, List.not_mem_nil, or_false] at hs
    rcases hs with rfl | rfl <;> simp [topTri, botTri]
  · rcases List.mem_flatMap.mp h with ⟨ring, _, hr⟩
    rw [ringWalls_eq] at hr
    rcases List.mem_flatMap.mp hr with ⟨j, _, hj⟩
    simp only [List.mem_cons, List.not_mem_nil, or_false] at hj
    rcases hj with rfl | rfl <;> simp [wallTriA, wallTriB]

/-- C10: every vertex of every triangle the pipeline appends to the output
mesh has `z` equal to exactly `0` or exactly the configured thickness. -/
theorem C10_vertices_at_caps_only (th : ℚ) (faces : List Face) (t : Tri3)
    (ht : t ∈ (generateTriangles th faces).1) (v : Pt3)
    (hv : v = t.1 ∨ v = t.2.1 ∨ v = t.2.2) :
    v.2.2 = 0 ∨ v.2.2 = th := by
  rw [generateTriangles_eq] at ht
  rcases List.mem_flatMap.mp ht with ⟨ip, _, hip⟩
  rcases List.mem_flatMap.mp hip with ⟨piece, _, hp⟩
  rcases hq : piece.triangulation with e | mesh <;> rw [pieceTris, hq] at hp
  · simp at hp
  · have hz := extrudePiece_z th piece mesh t hp
    rcases hv with rfl | rfl | rfl
    · exact hz.1
    · exact hz.2.1
    · exact hz.2.2

/-! ### Concrete encoders and inputs used by closed statements -/

/-- A 4-byte-per-scalar vertex encoder (stands in for `struct.pack('<f', ·)`). -/
def enc0 : ℚ → List ℕ := fun _ => [0, 0, 0, 0]

/-- A 4-byte-per-scalar normal encoder. -/
def encR0 : ℝ → List ℕ := fun _ => [0, 0, 0, 0]

/-- A face whose `buffer` call returned an empty geometry. -/
def faceEmptyOffset : Face := { buffered := .empty, area := 5 }

/-- A buffered piece whose `triangulate` call raised. -/
def pieceFail : Piece :=
  { triangulation := .error "boom", keep := fun _ => false, rings := [] }

/-- C8 counterexample: a face with an empty offset result is skipped with NO
log line at all — the claim that a per-face failure is "always logged with a
warning" fails on this input (and the face contributes no triangles). -/
theorem C8_counterexample_silent_skip :
    (generateTriangles 3 [faceEmptyOffset]).2 = [] ∧
      (generateTriangles 3 [faceEmptyOffset]).1 = [] := by
  constructor <;> rfl

/-- C8 amended: an empty offset result is skipped silently (no log); a
triangulation error is logged and its piece skipped; in both cases the batch
continues — the mesh and the log are the concatenation of every face's own
contribution, so no face is affected by another face's failure. -/
theorem C8_per_face_failures_isolated (th : ℚ) (faces : List Face) :
    (generateTriangles th faces).1 = faces.enum.flatMap (faceTris th) ∧
    (generateTriangles th faces).2 = faces.enum.flatMap faceLogs ∧
    (∀ (i : ℕ) (a : ℚ), faceTris th (i, ⟨.empty, a⟩) = [] ∧
      faceLogs (i, ⟨.empty, a⟩) = []) ∧
    (∀ (i : ℕ) (p : Piece) (e : String), p.triangulation = .error e →
      pieceTris th p = [] ∧ pieceLogs i p = [.triangulationFailed i e]) := by
  refine ⟨(congrArg Prod.fst (generateTriangles_eq th faces)),
    (congrArg Prod.snd (generateTriangles_eq th faces)), ?_, ?_⟩
  · intro i a; exact ⟨rfl, rfl⟩
  · intro i p e he
    rw [pieceTris, pieceLogs, he]
    exact ⟨rfl, rfl⟩

/-- Witness for `C8_per_face_failures_isolated` at a concrete failing piece. -/
theorem C8_per_face_failures_isolated_witness :
    pieceFail.triangulation = .error "boom" ∧
      (pieceTris 3 pieceFail = [] ∧
        pieceLogs 7 pieceFail = [.triangulationFailed 7 "boom"]) :=
  ⟨rfl, (C8_per_face_failures_isolated 3 []).2.2.2 7 pieceFail "boom" rfl⟩

/-- C7 counterexample: with exactly one polygonized face, `process_puzzle`
(from `generate_stl.py`) returns early and never reaches serialization — no
bytes are written, refuting "the pipeline run … continues to the
mesh-generation and serialization stages" for that cited implementation. -/
theorem C7_counterexample_cli_aborts :
    (process_puzzle_post 3 enc0 encR0 [faceEmptyOffset]).written = none := by
  rfl

/-- C7 amended: on 0 or 1 faces both implementations print the warning, but
only `PuzzleProcessor.run` continues to mesh generation and serialization
(writing the near-empty mesh); `process_puzzle` returns early without
writing anything. -/
theorem C7_degenerate_topology_behaviour (th : ℚ) (enc : ℚ → List ℕ)
    (encR : ℝ → List ℕ) (faces : List Face) (h : faces.length ≤ 1) :
    (core_run_post th enc encR faces).written =
        some (write_stl enc encR (generateTriangles th faces).1) ∧
    LogMsg.warnDegenerate ∈ (core_run_post th enc encR faces).logs ∧
    (process_puzzle_post th enc encR faces).written = none ∧
    LogMsg.warnDegenerate ∈ (process_puzzle_post th enc encR faces).logs := by
  refine ⟨rfl, ?_, ?_, ?_⟩
  · simp [core_run_post, degenLogs, h]
  · simp [process_puzzle_post, h]
  · simp [process_puzzle_post, degenLogs, h]

/-- Witness for `C7_degenerate_topology_behaviour` on an empty face list. -/
theorem C7_degenerate_topology_behaviour_witness :
    ([] : List Face).length ≤ 1 ∧
      ((core_run_post 3 enc0 encR0 []).written =
          some (write_stl enc0 encR0 (generateTriangles 3 []).1) ∧
        LogMsg.warnDegenerate ∈ (core_run_post 3 enc0 encR0 []).logs ∧
        (process_puzzle_post 3 enc0 encR0 []).written = none ∧
        LogMsg.warnDegenerate ∈ (process_puzzle_post 3 enc0 encR0 []).logs) :=
  ⟨by decide, C7_degenerate_topology_behaviour 3 enc0 encR0 [] (by decide)⟩

/-- C9 counterexample: a run that reaches the end with zero triangles is NOT
reported as a user-facing failure: `PuzzleProcessor.run` writes a valid
84-byte STL (zero header, count 0) and prints the same success message as
any other run — no `EmptyOutputMesh` outcome exists in the code. -/
theorem C9_counterexample_zero_triangles_success :
    (core_run_post 3 enc0 encR0 []).written =
        some (List.replicate 80 0 ++ le32 0) ∧
      (core_run_post 3 enc0 encR0 []).logs =
        [.foundPieces 0, .warnDegenerate, .writingTriangles 0, .successSaved] := by
  constructor
  · show some (write_stl enc0 encR0 []) = _
    rw [write_stl]
    simp
  · rfl

/-- C9 amended: whenever the accumulated mesh is empty, the run still writes
the 84-byte empty STL and reports success; the outcome is indistinguishable
in kind from a non-empty success. -/
theorem C9_zero_triangles_not_a_failure (th : ℚ) (enc : ℚ → List ℕ)
    (encR : ℝ → List ℕ) (faces : List Face)
    (h : (generateTriangles th faces).1 = []) :
    (core_run_post th enc encR faces).written =
        some (List.replicate 80 0 ++ le32 0) ∧
      LogMsg.successSaved ∈ (core_run_post th enc encR faces).logs := by
  constructor
  · show some (write_stl enc encR (generateTriangles th faces).1) = _
    rw [h, write_stl]
    simp
  · simp [core_run_post]

/-- Witness for `C9_zero_triangles_not_a_failure` on an empty face list. -/
theorem C9_zero_triangles_not_a_failure_witness :
    (generateTriangles 3 []).1 = [] ∧
      ((core_run_post 3 enc0 encR0 []).written =
          some (List.replicate 80 0 ++ le32 0) ∧
        LogMsg.successSaved ∈ (core_run_post 3 enc0 encR0 []).logs) :=
  ⟨rfl, C9_zero_triangles_not_a_failure 3 enc0 encR0 [] rfl⟩

/-! ### Serializer facts -/

/-- Summing a constant record length over a `flatMap`. -/
theorem length_flatMap_const {α β : Type} (g : α → List β) (c : ℕ)
    (h : ∀ a, (g a).length = c) (l : List α) :
    (l.flatMap g).length = c * l.length := by
  induction l with
  | nil => simp
  | cons a t ih => simp [h, ih]; ring

/-- The squared norm of a nonzero rational 3-vector is positive. -/
theorem sqNorm3_pos (v : Pt3) (h : v ≠ (0, 0, 0)) : 0 < sqNorm3 v := by
  rcases v with ⟨x, y, z⟩
  rcases lt_or_eq_of_le (by positivity : (0:ℚ) ≤ x^2 + y^2 + z^2) with hlt | heq
  · exact hlt
  · exfalso
    apply h
    have hx : x = 0 := by nlinarith [sq_nonneg x, sq_nonneg y, sq_nonneg z]
    have hy : y = 0 := by nlinarith [sq_nonneg x, sq_nonneg y, sq_nonneg z]
    have hz : z = 0 := by nlinarith [sq_nonneg x, sq_nonneg y, sq_nonneg z]
    simp [hx, hy, hz]

/-- The normal written by the serializer: exactly zero on a degenerate
triangle, a unit vector otherwise. -/
theorem stlNormal_spec (t : Tri3) :
    (triNormalRaw t = (0, 0, 0) → stlNormal t = (0, 0, 0)) ∧
      (triNormalRaw t ≠ (0, 0, 0) → sqNorm3R (stlNormal t) = 1) := by
  constructor
  · intro h
    rw [stlNormal]
    simp [h, sqNorm3]
  · intro h
    have hS : 0 < sqNorm3 (triNormalRaw t) := sqNorm3_pos _ h
    have hSR : (0:ℝ) < ((sqNorm3 (triNormalRaw t) : ℚ) : ℝ) := by exact_mod_cast hS
    have hn : Real.sqrt ((sqNorm3 (triNormalRaw t) : ℚ) : ℝ) ≠ 0 :=
      ne_of_gt (Real.sqrt_pos.mpr hSR)
    rw [stlNormal]
    simp only [if_neg hn]
    rw [sqNorm3R]
    have key : (((triNormalRaw t).1 : ℝ))^2 + (((triNormalRaw t).2.1 : ℝ))^2 +
        (((triNormalRaw t).2.2 : ℝ))^2 = ((sqNorm3 (triNormalRaw t) : ℚ) : ℝ) := by
      rw [sqNorm3]
      push_cast
      ring
    have hn2 : Real.sqrt ((sqNorm3 (triNormalRaw t) : ℚ) : ℝ) ^ 2 =
        ((sqNorm3 (triNormalRaw t) : ℚ) : ℝ) := Real.sq_sqrt hSR.le
    simp only [div_pow]
    rw [div_add_div_same, div_add_div_same, key, hn2]
    exact div_self (ne_of_gt hSR)

/-- One triangle record is 50 bytes when the scalar encoders emit 4 bytes. -/
theorem packTriangle_length (enc : ℚ → List ℕ) (encR : ℝ → List ℕ)
    (h4 : ∀ x, (enc x).length = 4) (h4R : ∀ x, (encR x).length = 4)
    (t : Tri3) : (packTriangle enc encR t).length = 50 := by
  rw [packTriangle]
  simp [h4, h4R]

/-- C2: serializing `N` triangles writes exactly `84 + 50*N` bytes — an
80-byte zero header, the 4 little-endian count bytes denoting `N`, and one
50-byte record per triangle ending in the zero attribute field; every
written normal is exactly zero when the edge cross product is zero and a
unit vector otherwise, and no triangle causes an error (the serializer is a
total function). -/
theorem C2_write_stl_layout (enc : ℚ → List ℕ) (encR : ℝ → List ℕ)
    (tris : List Tri3) (h4 : ∀ x, (enc x).length = 4)
    (h4R : ∀ x, (encR x).length = 4) :
    (write_stl enc encR tris).length = 84 + 50 * tris.length ∧
    (write_stl enc encR tris).take 80 = List.replicate 80 0 ∧
    ((write_stl enc encR tris).drop 80).take 4 = le32 tris.length ∧
    (tris.length < 2^32 → val32 (le32 tris.length) = tris.length) ∧
    ∀ t ∈ tris, (packTriangle enc encR t).length = 50 ∧
      (packTriangle enc encR t).drop 48 = [0, 0] ∧
      (triNormalRaw t = (0, 0, 0) → stlNormal t = (0, 0, 0)) ∧
      (triNormalRaw t ≠ (0, 0, 0) → sqNorm3R (stlNormal t) = 1) := by
  have hrep : (List.replicate 80 (0:ℕ)).length = 80 := List.length_replicate 80 0
  have hle : (le32 tris.length).length = 4 := rfl
  refine ⟨?_, ?_, ?_, ?_, ?_⟩
  · rw [write_stl]
    simp only [List.length_append, hrep, hle,
      length_flatMap_const (packTriangle enc encR) 50
        (packTriangle_length enc encR h4 h4R)]
  · rw [write_stl, List.append_assoc]
    exact List.take_left' hrep
  · rw [write_stl, List.append_assoc]
    rw [List.drop_left' hrep]
    exact List.take_left' hle
  · intro hlt
    rw [le32, val32]
    simp only [List.getD]
    show tris.length % 256 + 256 * (tris.length / 256 % 256 +
      256 * (tris.length / 256^2 % 256 + 256 * (tris.length / 256^3 % 256))) =
        tris.length
    have h2 : (256:ℕ)^2 = 65536 := by norm_num
    have h3 : (256:ℕ)^3 = 16777216 := by norm_num
    rw [h2, h3]
    omega
  · intro t _
    refine ⟨packTriangle_length enc encR h4 h4R t, ?_,
      (stlNormal_spec t).1, (stlNormal_spec t).2⟩
    rw [packTriangle]
    have hpre : (encR (stlNormal t).1 ++ encR (stlNormal t).2.1 ++
        encR (stlNormal t).2.2 ++ enc t.1.1 ++ enc t.1.2.1 ++ enc t.1.2.2 ++
        enc t.2.1.1 ++ enc t.2.1.2.1 ++ enc t.2.1.2.2 ++ enc t.2.2.1 ++
        enc t.2.2.2.1 ++ enc t.2.2.2.2).length = 48 := by
      simp [h4, h4R]
    exact List.drop_left' hpre

/-- A concrete (nondegenerate) triangle in the `z = 0` plane. -/
def triW : Tri3 := ((0, 0, 0), (1, 0, 0), (0, 1, 0))

/-- Witness for `C2_write_stl_layout` with the constant 4-byte encoders and
one concrete triangle. -/
theorem C2_write_stl_layout_witness :
    (∀ x : ℚ, (enc0 x).length = 4) ∧ (∀ x : ℝ, (encR0 x).length = 4) ∧
      ((write_stl enc0 encR0 [triW]).length = 84 + 50 * [triW].length ∧
      (write_stl enc0 encR0 [triW]).take 80 = List.replicate 80 0 ∧
      ((write_stl enc0 encR0 [triW]).drop 80).take 4 = le32 [triW].length ∧
      ([triW].length < 2^32 → val32 (le32 [triW].length) = [triW].length) ∧
      ∀ t ∈ [triW], (packTriangle enc0 encR0 t).length = 50 ∧
        (packTriangle enc0 encR0 t).drop 48 = [0, 0] ∧
        (triNormalRaw t = (0, 0, 0) → stlNormal t = (0, 0, 0)) ∧
        (triNormalRaw t ≠ (0, 0, 0) → sqNorm3R (stlNormal t) = 1)) :=
  ⟨fun _ => rfl, fun _ => rfl,
    C2_write_stl_layout enc0 encR0 [triW] (fun _ => rfl) (fun _ => rfl)⟩

/-! ### Discretizer facts -/

/-- The sampling loop emits exactly `count` points per kept segment. -/
theorem segSamples_length (seg : Seg) (d : ℚ) :
    (segSamples seg d).length = sampleCount seg.length d := by
  simp [segSamples]

/-- The last point the sampling loop emits is the segment's own end point
(`i = count` gives `t = 1`). -/
theorem segSamples_getLast (seg : Seg) (d : ℚ) :
    (segSamples seg d).getLast? = some (round4Pt (seg.point 1)) := by
  have h2 : 2 ≤ sampleCount seg.length d := le_max_left _ _
  set n := sampleCount seg.length d with hn
  have hn0 : n ≠ 0 := by omega
  rw [segSamples, List.getLast?_eq_getElem?]
  simp only [List.length_map, List.length_range]
  rw [List.getElem?_map, List.getElem?_range (by omega : n - 1 < n)]
  simp only [Option.map_some']
  congr 2
  rw [← hn, Nat.sub_add_cancel (by omega : 1 ≤ n),
    div_self (by exact_mod_cast hn0 : (n:ℚ) ≠ 0)]

/-- Rationals whose scaling by `10^4` is an integer are fixed by `round4`. -/
theorem round4_eq_self (x : ℚ) (n : ℤ) (h : x * 10000 = (n : ℚ)) :
    round4 x = x := by
  have hx : x = (n : ℚ) / 10000 := by
    rw [eq_div_iff (by norm_num : (10000:ℚ) ≠ 0)]
    exact h
  rw [round4, roundHalfEven]
  simp only [h, Int.floor_intCast, sub_self]
  rw [if_pos (by norm_num : (0:ℚ) < 1/2)]
  exact hx.symm

/-- A straight unit-length segment from `(0,0)` to `(1,0)`. -/
def seg0 : Seg := { start := (0, 0), point := fun t => (t, 0), length := 1 }

/-- At density `1/2`, the unit segment's sample count is `max(2, ⌊2⌋) = 2`. -/
theorem sampleCount_seg0 : sampleCount seg0.length (1/2) = 2 := by
  norm_num [sampleCount, pyInt, seg0]

/-- A segment with sample count 2 is sampled at `t = 1/2` and `t = 1`. -/
theorem segSamples_of_count_two (seg : Seg) (d : ℚ)
    (h : sampleCount seg.length d = 2) :
    segSamples seg d = [round4Pt (seg.point (1/2)), round4Pt (seg.point 1)] := by
  rw [segSamples]
  simp only [h]
  norm_num [List.range_succ]

/-- C3 counterexample: for the unit segment at density `1/2` the sampling
loop emits `max(2, ⌊L/d⌋) = 2` points in total — one interior point and the
end point — not `max(2, ⌊L/d⌋)` interior points plus the end point (which
would be 3 points). -/
theorem C3_counterexample_sample_count :
    sampleCount seg0.length (1/2) = 2 ∧
      segSamples seg0 (1/2) = [(1/2, 0), (1, 0)] ∧
      (segSamples seg0 (1/2)).length ≠ sampleCount seg0.length (1/2) + 1 := by
  have h1 := sampleCount_seg0
  have h2 : segSamples seg0 (1/2) = [(1/2, 0), (1, 0)] := by
    rw [segSamples_of_count_two seg0 (1/2) h1]
    rw [show seg0.point (1/2) = ((1:ℚ)/2, (0:ℚ)) from rfl,
      show seg0.point 1 = ((1:ℚ), (0:ℚ)) from rfl]
    rw [round4Pt, round4Pt]
    norm_num [round4_eq_self (1/2) 5000 (by norm_num),
      round4_eq_self 0 0 (by norm_num), round4_eq_self 1 10000 (by norm_num)]
  refine ⟨h1, h2, ?_⟩
  rw [h2, h1]
  simp

/-- C3 amended: for every kept segment (`length ≥ 1e-5`) and density `d > 0`
the discretizer samples exactly `max(2, ⌊L/d⌋)` points at `t = i/count`,
`i = 1..count` — that is, `max(2, ⌊L/d⌋) − 1` interior points plus the
segment's own end point — each coordinate rounded to 4 decimal digits, and
appends them to the polyline after the conditional start point. -/
theorem C3_kept_segment_sampling (seg : Seg) (d : ℚ) (hd : 0 < d)
    (hkept : ¬ seg.length < 1/100000) :
    (segSamples seg d).length = sampleCount seg.length d ∧
      (segSamples seg d).getLast? = some (round4Pt (seg.point 1)) ∧
      ∀ st : DiscState, discStep d st seg =
        { current :=
            (if (flushCheck st seg).current.isEmpty
              then [round4Pt (seg.point 0)] else (flushCheck st seg).current) ++
              segSamples seg d
          lines := (flushCheck st seg).lines } := by
  refine ⟨segSamples_length seg d, segSamples_getLast seg d, ?_⟩
  intro st
  rw [discStep]
  simp only [if_neg hkept]

/-- Witness for `C3_kept_segment_sampling` on the unit segment at density 1. -/
theorem C3_kept_segment_sampling_witness :
    (0:ℚ) < 1 ∧ ¬ seg0.length < 1/100000 ∧
      ((segSamples seg0 1).length = sampleCount seg0.length 1 ∧
        (segSamples seg0 1).getLast? = some (round4Pt (seg0.point 1)) ∧
        ∀ st : DiscState, discStep 1 st seg0 =
          { current :=
              (if (flushCheck st seg0).current.isEmpty
                then [round4Pt (seg0.point 0)] else (flushCheck st seg0).current) ++
                segSamples seg0 1
            lines := (flushCheck st seg0).lines }) :=
  ⟨one_pos, by norm_num [seg0],
    C3_kept_segment_sampling seg0 1 one_pos (by norm_num [seg0])⟩

/-- C6: lowering the density never lowers the number of points sampled for a
segment. -/
theorem C6_smaller_density_no_fewer_points (seg : Seg) (d1 d2 : ℚ)
    (hL : 0 < seg.length) (h2 : 0 < d2) (h12 : d2 ≤ d1) :
    (segSamples seg d1).length ≤ (segSamples seg d2).length := by
  rw [segSamples_length, segSamples_length, sampleCount, sampleCount]
  have h1 : 0 < d1 := lt_of_lt_of_le h2 h12
  have hdiv : seg.length / d1 ≤ seg.length / d2 := by
    rw [div_eq_mul_inv, div_eq_mul_inv]
    exact mul_le_mul_of_nonneg_left (inv_le_inv_of_le h2 h12) hL.le
  have hfl : pyInt (seg.length / d1) ≤ pyInt (seg.length / d2) := by
    rw [pyInt, pyInt, if_pos (by positivity), if_pos (by positivity)]
    exact Int.floor_mono hdiv
  exact max_le_max (le_refl 2) (Int.toNat_le_toNat hfl)

/-- Witness for `C6_smaller_density_no_fewer_points`: densities `1` and `1/2`
on the unit segment. -/
theorem C6_smaller_density_no_fewer_points_witness :
    (0:ℚ) < seg0.length ∧ (0:ℚ) < 1/2 ∧ (1:ℚ)/2 ≤ 1 ∧
      (segSamples seg0 1).length ≤ (segSamples seg0 (1/2)).length :=
  ⟨one_pos, one_half_pos, one_half_lt_one.le,
    C6_smaller_density_no_fewer_points seg0 1 (1/2) one_pos one_half_pos
      one_half_lt_one.le⟩

/-- C4 amended: a segment shorter than `1e-5` contributes no sample points,
but it is not a no-op — the discontinuity check runs first, so when its
start lies farther than `1e-3` from the current polyline's last point the
current polyline is flushed (kept if it has ≥ 2 points) before the segment
is skipped. -/
theorem C4_short_segment_still_flushes (d : ℚ) (st : DiscState) (seg : Seg)
    (hshort : seg.length < 1/100000) :
    discStep d st seg = flushCheck st seg ∧
      ∀ p, st.current.getLast? = some p → (1/1000)^2 < distSq seg.start p →
        (discStep d st seg).current = [] ∧
          (discStep d st seg).lines = st.lines ++
            (if 2 ≤ st.current.length then [st.current] else []) := by
  have h1 : discStep d st seg = flushCheck st seg := by
    rw [discStep]
    simp only [if_pos hshort]
  refine ⟨h1, fun p hp hdist => ?_⟩
  rw [h1, flushCheck]
  simp only [hp]
  rw [if_pos hdist]
  by_cases hl : 2 ≤ st.current.length
  · simp [hl]
  · simp [hl]

/-- The three-segment path of the C4 counterexample: a kept segment, a
zero-length segment starting far away, and a kept segment continuing from
the first one's end. -/
def segA : Seg := { start := (0, 0), point := fun t => (2 * t, 0), length := 2 }

/-- Zero-length segment whose start `(5,5)` is far from the polyline end. -/
def segB : Seg := { start := (5, 5), point := fun _ => (5, 5), length := 0 }

/-- Kept segment continuing exactly at the first segment's end `(2,0)`. -/
def segC : Seg := { start := (2, 0), point := fun t => (2 + 2 * t, 0), length := 2 }

/-- Witness for `C4_short_segment_still_flushes` at the zero-length segment. -/
theorem C4_short_segment_still_flushes_witness :
    segB.length < 1/100000 ∧
      (discStep 1 ⟨[(0, 0)], []⟩ segB = flushCheck ⟨[(0, 0)], []⟩ segB ∧
        ∀ p, ([((0:ℚ), (0:ℚ))]).getLast? = some p →
          (1/1000)^2 < distSq segB.start p →
          (discStep 1 ⟨[(0, 0)], []⟩ segB).current = [] ∧
            (discStep 1 ⟨[(0, 0)], []⟩ segB).lines = [] ++
              (if 2 ≤ ([((0:ℚ), (0:ℚ))]).length then [[((0:ℚ), (0:ℚ))]] else [])) :=
  ⟨by norm_num [segB],
    C4_short_segment_still_flushes 1 ⟨[(0, 0)], []⟩ segB (by norm_num [segB])⟩

/-- `segA` has sample count 2 at density 1. -/
theorem sampleCount_segA : sampleCount segA.length 1 = 2 := by
  norm_num [sampleCount, pyInt, segA]

/-- `segC` has sample count 2 at density 1. -/
theorem sampleCount_segC : sampleCount segC.length 1 = 2 := by
  norm_num [sampleCount, pyInt, segC]

/-- Samples of `segA` at density 1. -/
theorem segSamples_segA : segSamples segA 1 = [(1, 0), (2, 0)] := by
  rw [segSamples_of_count_two segA 1 sampleCount_segA]
  rw [show segA.point (1/2) = ((1:ℚ), (0:ℚ)) from by norm_num [segA],
    show segA.point 1 = ((2:ℚ), (0:ℚ)) from by norm_num [segA]]
  rw [round4Pt, round4Pt]
  norm_num [round4_eq_self 1 10000 (by norm_num),
    round4_eq_self 2 20000 (by norm_num), round4_eq_self 0 0 (by norm_num)]

/-- Samples of `segC` at density 1. -/
theorem segSamples_segC : segSamples segC 1 = [(3, 0), (4, 0)] := by
  rw [segSamples_of_count_two segC 1 sampleCount_segC]
  rw [show segC.point (1/2) = ((3:ℚ), (0:ℚ)) from by norm_num [segC],
    show segC.point 1 = ((4:ℚ), (0:ℚ)) from by norm_num [segC]]
  rw [round4Pt, round4Pt]
  norm_num [round4_eq_self 3 30000 (by norm_num),
    round4_eq_self 4 40000 (by norm_num), round4_eq_self 0 0 (by norm_num)]

/-- Discretizer step on `segA` from the empty state. -/
theorem discStep_segA : discStep 1 ⟨[], []⟩ segA =
    ⟨[(0, 0), (1, 0), (2, 0)], []⟩ := by
  rw [discStep]
  rw [show flushCheck ⟨[], []⟩ segA = ⟨[], []⟩ from rfl]
  rw [if_neg (show ¬ segA.length < 1/100000 by norm_num [segA])]
  rw [show segA.point 0 = ((0:ℚ), (0:ℚ)) from by norm_num [segA]]
  rw [segSamples_segA, round4Pt]
  norm_num [round4_eq_self 0 0 (by norm_num)]

/-- Discretizer step on the short far-away `segB`: the polyline is flushed. -/
theorem discStep_segB : discStep 1 ⟨[(0, 0), (1, 0), (2, 0)], []⟩ segB =
    ⟨[], [[(0, 0), (1, 0), (2, 0)]]⟩ := by
  rw [discStep]
  rw [if_pos (show segB.length < 1/100000 by norm_num [segB])]
  rw [flushCheck]
  norm_num [distSq, segB, List.getLast?]

/-- Discretizer step on `segC` after the flush: a fresh polyline starts. -/
theorem discStep_segC_fresh : discStep 1 ⟨[], [[(0, 0), (1, 0), (2, 0)]]⟩ segC =
    ⟨[(2, 0), (3, 0), (4, 0)], [[(0, 0), (1, 0), (2, 0)]]⟩ := by
  rw [discStep]
  rw [show flushCheck ⟨[], [[(0, 0), (1, 0), (2, 0)]]⟩ segC =
    ⟨[], [[(0, 0), (1, 0), (2, 0)]]⟩ from rfl]
  rw [if_neg (show ¬ segC.length < 1/100000 by norm_num [segC])]
  rw [show segC.point 0 = ((2:ℚ), (0:ℚ)) from by norm_num [segC]]
  rw [segSamples_segC, round4Pt]
  norm_num [round4_eq_self 2 20000 (by norm_num), round4_eq_self 0 0 (by norm_num)]

/-- Discretizer step on `segC` directly after `segA` (no flush, since the
start coincides with the polyline end): the polyline continues. -/
theorem discStep_segC_cont : discStep 1 ⟨[(0, 0), (1, 0), (2, 0)], []⟩ segC =
    ⟨[(0, 0), (1, 0), (2, 0), (3, 0), (4, 0)], []⟩ := by
  rw [discStep]
  rw [show flushCheck ⟨[(0, 0), (1, 0), (2, 0)], []⟩ segC =
      ⟨[(0, 0), (1, 0), (2, 0)], []⟩ from by
    rw [flushCheck]
    norm_num [distSq, segC, List.getLast?]]
  rw [if_neg (show ¬ segC.length < 1/100000 by norm_num [segC])]
  rw [segSamples_segC]
  norm_num

/-- C4 counterexample: the zero-length `segB` is not a no-op — with it the
path splits into two polylines; without it the same kept segments form one
polyline.  Its discontinuity flush fired even though its length is below
`1e-5`. -/
theorem C4_counterexample_short_segment_flushes :
    discretize_path [segA, segB, segC] 1 =
        [[(0, 0), (1, 0), (2, 0)], [(2, 0), (3, 0), (4, 0)]] ∧
      discretize_path [segA, segC] 1 =
        [[(0, 0), (1, 0), (2, 0), (3, 0), (4, 0)]] := by
  constructor
  · rw [discretize_path]
    simp only [List.foldl_cons, List.foldl_nil]
    rw [discStep_segA, discStep_segB, discStep_segC_fresh]
    norm_num
  · rw [discretize_path]
    simp only [List.foldl_cons, List.foldl_nil]
    rw [discStep_segA, discStep_segC_cont]
    norm_num

/-! ### Segment extender (`geometry.py`, `extend_line`)

Endpoint extension divides by a Euclidean norm (`np.linalg.norm`), so this
component is modelled over `ℝ`.  The `line.is_empty` and `len(coords) < 2`
early returns collapse into the single `length < 2` guard. -/

/-- A 2-D point with real coordinates. -/
abbrev PtR := ℝ × ℝ

/-- Euclidean norm of a 2-D vector (`np.linalg.norm`). -/
noncomputable def norm2 (p : PtR) : ℝ := Real.sqrt (p.1^2 + p.2^2)

/-- `extend_line(line, dist)`: push the first point along the reversed first
edge and the last point along the last edge, each by `dist`, skipping an end
whose edge norm is not above `1e-6`; the two updates are sequential, exactly
as the source mutates `coords[0]` before reading `coords[-2]`. -/
noncomputable def extend_line (coords : List PtR) (dist : ℝ) : List PtR :=
  if coords.length < 2 then coords
  else
    let p0 := coords.getD 0 (0, 0)
    let p1 := coords.getD 1 (0, 0)
    let v := p0 - p1
    let c1 := if 1/1000000 < norm2 v
      then coords.set 0 (p0 + (dist / norm2 v) • v) else coords
    let pn := c1.getD (c1.length - 1) (0, 0)
    let pn1 := c1.getD (c1.length - 2) (0, 0)
    let w := pn - pn1
    if 1/1000000 < norm2 w
      then c1.set (c1.length - 1) (pn + (dist / norm2 w) • w) else c1

theorem norm2_nonneg (p : PtR) : 0 ≤ norm2 p := Real.sqrt_nonneg _

/-- Scaling a vector scales its norm by the absolute factor. -/
theorem norm2_smul (t : ℝ) (v : PtR) : norm2 (t • v) = |t| * norm2 v := by
  rcases v with ⟨x, y⟩
  rw [norm2, norm2]
  simp only [Prod.smul_mk, smul_eq_mul]
  rw [show (t * x)^2 + (t * y)^2 = t^2 * (x^2 + y^2) by ring,
    Real.sqrt_mul (sq_nonneg t), Real.sqrt_sq_eq_abs]

/-- The norm of a difference is symmetric. -/
theorem norm2_sub_comm (a b : PtR) : norm2 (a - b) = norm2 (b - a) := by
  rcases a with ⟨ax, ay⟩
  rcases b with ⟨bx, by'⟩
  rw [norm2, norm2]
  simp only [Prod.mk_sub_mk]
  ring_nf

/-- Pushing a point by `dist/‖v‖ · v` moves it by exactly `dist ≥ 0`. -/
theorem extend_move_dist (p v : PtR) (e : ℝ) (he : 0 ≤ e) (hv : 0 < norm2 v) :
    norm2 (p + (e / norm2 v) • v - p) = e := by
  rw [add_sub_cancel_left, norm2_smul, abs_of_nonneg (div_nonneg he hv.le),
    div_mul_cancel₀ _ (ne_of_gt hv)]

/-- `List.getD` ignores an update at a different index. -/
theorem getD_set_ne {α : Type} (l : List α) (i j : ℕ) (x d : α) (h : i ≠ j) :
    (l.set i x).getD j d = l.getD j d := by
  rw [List.getD_eq_getElem?_getD, List.getD_eq_getElem?_getD,
    List.getElem?_set_ne h]

/-- `List.getD` reads back an in-bounds update. -/
theorem getD_set_eq {α : Type} (l : List α) (i : ℕ) (x d : α)
    (h : i < l.length) : (l.set i x).getD i d = x := by
  rw [List.getD_eq_getElem?_getD, List.getElem?_set_eq h]
  rfl

/-- In the sequential update of a 2-point polyline, the end extension still
moves the last point by `e` along the original last edge: the first update
rescales the edge vector by the positive factor `1 + e/‖v‖`, leaving its
direction unchanged and its norm above the threshold. -/
theorem two_point_end_extension (p0 p1 : PtR) (e : ℝ) (he : 0 ≤ e)
    (h1 : 1/1000000 < norm2 (p0 - p1)) :
    norm2 (p1 - (p0 + (e / norm2 (p0 - p1)) • (p0 - p1))) =
        norm2 (p0 - p1) + e ∧
      p1 + (e / norm2 (p1 - (p0 + (e / norm2 (p0 - p1)) • (p0 - p1)))) •
          (p1 - (p0 + (e / norm2 (p0 - p1)) • (p0 - p1))) =
        p1 + (e / norm2 (p1 - p0)) • (p1 - p0) := by
  have hn0 : 0 < norm2 (p0 - p1) := lt_trans (by norm_num) h1
  set n0 := norm2 (p0 - p1) with hdefn0
  have hu : norm2 (p1 - p0) = n0 := by rw [hdefn0, norm2_sub_comm]
  have hw : p1 - (p0 + (e / n0) • (p0 - p1)) = (1 + e / n0) • (p1 - p0) := by
    have hv : p0 - p1 = -(p1 - p0) := by abel
    rw [hv, smul_neg, add_smul, one_smul]
    abel
  have hc : 0 ≤ e / n0 := div_nonneg he hn0.le
  have hnw : norm2 (p1 - (p0 + (e / n0) • (p0 - p1))) = n0 + e := by
    rw [hw, norm2_smul, abs_of_nonneg (by linarith), hu]
    field_simp
  refine ⟨hnw, ?_⟩
  have hne : n0 ≠ 0 := ne_of_gt hn0
  have hne2 : n0 + e ≠ 0 := ne_of_gt (by linarith)
  rw [hnw, hw, smul_smul, hu]
  have hcoef : e / (n0 + e) * (1 + e / n0) = e / n0 := by
    field_simp
  rw [hcoef]

/-- C5: extending a polyline with at least two points by `e ≥ 0` moves each
endpoint exactly distance `e` along its adjacent edge's direction (first
edge reversed for the start, last edge forward for the end), each end
independently; an end whose adjacent edge has norm at most `1e-6` is left
unchanged, and all interior points are unchanged. -/
theorem C5_extend_line_moves_endpoints (coords : List PtR) (e : ℝ)
    (hlen : 2 ≤ coords.length) (he : 0 ≤ e) :
    (extend_line coords e).length = coords.length ∧
    (∀ i, 0 < i → i + 1 < coords.length →
      (extend_line coords e).getD i (0, 0) = coords.getD i (0, 0)) ∧
    ((1/1000000 < norm2 (coords.getD 0 (0,0) - coords.getD 1 (0,0)) →
      (extend_line coords e).getD 0 (0, 0) =
        coords.getD 0 (0,0) +
          (e / norm2 (coords.getD 0 (0,0) - coords.getD 1 (0,0))) •
          (coords.getD 0 (0,0) - coords.getD 1 (0,0)) ∧
      norm2 ((extend_line coords e).getD 0 (0, 0) - coords.getD 0 (0,0)) = e) ∧
     (¬ 1/1000000 < norm2 (coords.getD 0 (0,0) - coords.getD 1 (0,0)) →
      (extend_line coords e).getD 0 (0, 0) = coords.getD 0 (0,0))) ∧
    ((1/1000000 < norm2 (coords.getD (coords.length - 1) (0,0) -
        coords.getD (coords.length - 2) (0,0)) →
      (extend_line coords e).getD (coords.length - 1) (0, 0) =
        coords.getD (coords.length - 1) (0,0) +
          (e / norm2 (coords.getD (coords.length - 1) (0,0) -
            coords.getD (coords.length - 2) (0,0))) •
          (coords.getD (coords.length - 1) (0,0) -
            coords.getD (coords.length - 2) (0,0)) ∧
      norm2 ((extend_line coords e).getD (coords.length - 1) (0, 0) -
        coords.getD (coords.length - 1) (0,0)) = e) ∧
     (¬ 1/1000000 < norm2 (coords.getD (coords.length - 1) (0,0) -
        coords.getD (coords.length - 2) (0,0)) →
      (extend_line coords e).getD (coords.length - 1) (0, 0) =
        coords.getD (coords.length - 1) (0,0))) := by
  have hg : ¬ coords.length < 2 := by omega
  by_cases h1 : 1/1000000 < norm2 (coords.getD 0 (0,0) - coords.getD 1 (0,0))
  · rcases Nat.lt_or_ge coords.length 3 with hn2 | hn3
    · -- two-point polyline: the sequential update aliases `coords[-2]`
      have hn2' : coords.length = 2 := by omega
      set a := coords.getD 0 (0,0) with ha
      set b := coords.getD 1 (0,0) with hb
      obtain ⟨hnw, hval⟩ := two_point_end_extension a b e he h1
      have h2' : 1/1000000 < norm2 (b - (a + (e / norm2 (a - b)) • (a - b))) := by
        rw [hnw]
        linarith
      have i1 : coords.length - 1 = 1 := by omega
      have i2 : coords.length - 2 = 0 := by omega
      have hres : extend_line coords e =
          (coords.set 0 (a + (e / norm2 (a - b)) • (a - b))).set 1
            (b + (e / norm2 (b - (a + (e / norm2 (a - b)) • (a - b)))) •
              (b - (a + (e / norm2 (a - b)) • (a - b)))) := by
        rw [extend_line, if_neg hg]
        simp only [if_pos h1, List.length_set, i1, i2,
          getD_set_ne coords 0 1 _ _ (by omega),
          getD_set_eq coords 0 _ _ (by omega)]
        rw [if_pos h2']
      have hn0 : 0 < norm2 (a - b) := lt_trans (by norm_num) h1
      have hba : norm2 (b - a) = norm2 (a - b) := norm2_sub_comm b a
      have hlast : 1/1000000 < norm2 (b - a) := by rw [hba]; exact h1
      have hget1 : (extend_line coords e).getD 1 (0, 0) =
          b + (e / norm2 (b - a)) • (b - a) := by
        rw [hres, getD_set_eq _ 1 _ _ (by simp [List.length_set]; omega)]
        exact hval
      have hget0 : (extend_line coords e).getD 0 (0, 0) =
          a + (e / norm2 (a - b)) • (a - b) := by
        rw [hres, getD_set_ne _ 1 0 _ _ (by omega),
          getD_set_eq coords 0 _ _ (by omega)]
      refine ⟨?_, ?_, ⟨fun _ => ?_, fun hcon => absurd h1 hcon⟩,
        ⟨fun _ => ?_, fun hcon => absurd (by rw [i1, i2]; exact hlast) hcon⟩⟩
      · rw [hres]
        simp [List.length_set]
      · intro i hi0 hi1
        omega
      · exact ⟨hget0, by rw [hget0]; exact extend_move_dist a (a - b) e he hn0⟩
      · rw [i1, i2]
        refine ⟨hget1, ?_⟩
        rw [hget1]
        exact extend_move_dist b (b - a) e he (by rw [hba]; exact hn0)
    · -- at least three points: the two end updates are independent
      set a := coords.getD 0 (0,0) with ha
      set b := coords.getD 1 (0,0) with hb
      set pn := coords.getD (coords.length - 1) (0,0) with hpn
      set pm := coords.getD (coords.length - 2) (0,0) with hpm
      have hn0 : 0 < norm2 (a - b) := lt_trans (by norm_num) h1
      by_cases h2 : 1/1000000 < norm2 (pn - pm)
      · have hres : extend_line coords e =
            (coords.set 0 (a + (e / norm2 (a - b)) • (a - b))).set
              (coords.length - 1) (pn + (e / norm2 (pn - pm)) • (pn - pm)) := by
          rw [extend_line, if_neg hg]
          simp only [if_pos h1, List.length_set,
            getD_set_ne coords 0 (coords.length - 1) _ _ (by omega),
            getD_set_ne coords 0 (coords.length - 2) _ _ (by omega)]
          rw [if_pos h2]
        have hget0 : (extend_line coords e).getD 0 (0, 0) =
            a + (e / norm2 (a - b)) • (a - b) := by
          rw [hres, getD_set_ne _ (coords.length - 1) 0 _ _ (by omega),
            getD_set_eq coords 0 _ _ (by omega)]
        have hgetn : (extend_line coords e).getD (coords.length - 1) (0, 0) =
            pn + (e / norm2 (pn - pm)) • (pn - pm) := by
          rw [hres, getD_set_eq _ (coords.length - 1) _ _
            (by simp [List.length_set]; omega)]
        refine ⟨?_, ?_, ⟨fun _ => ?_, fun hcon => absurd h1 hcon⟩,
          ⟨fun _ => ?_, fun hcon => absurd h2 hcon⟩⟩
        · rw [hres]
          simp [List.length_set]
        · intro i hi0 hi1
          rw [hres, getD_set_ne _ (coords.length - 1) i _ _ (by omega),
            getD_set_ne coords 0 i _ _ (by omega)]
        · exact ⟨hget0, by rw [hget0]; exact extend_move_dist a (a - b) e he hn0⟩
        · refine ⟨hgetn, ?_⟩
          rw [hgetn]
          exact extend_move_dist pn (pn - pm) e he (lt_trans (by norm_num) h2)
      · have hres : extend_line coords e =
            coords.set 0 (a + (e / norm2 (a - b)) • (a - b)) := by
          rw [extend_line, if_neg hg]
          simp only [if_pos h1, List.length_set,
            getD_set_ne coords 0 (coords.length - 1) _ _ (by omega),
            getD_set_ne coords 0 (coords.length - 2) _ _ (by omega)]
          rw [if_neg h2]
        have hget0 : (extend_line coords e).getD 0 (0, 0) =
            a + (e / norm2 (a - b)) • (a - b) := by
          rw [hres, getD_set_eq coords 0 _ _ (by omega)]
        refine ⟨?_, ?_, ⟨fun _ => ?_, fun hcon => absurd h1 hcon⟩,
          ⟨fun hcon => absurd hcon h2, fun _ => ?_⟩⟩
        · rw [hres]
          simp [List.length_set]
        · intro i hi0 hi1
          rw [hres, getD_set_ne coords 0 i _ _ (by omega)]
        · exact ⟨hget0, by rw [hget0]; exact extend_move_dist a (a - b) e he hn0⟩
        · rw [hres, getD_set_ne coords 0 (coords.length - 1) _ _ (by omega)]
  · -- the start edge is below the threshold: the first point is unchanged
    set pn := coords.getD (coords.length - 1) (0,0) with hpn
    set pm := coords.getD (coords.length - 2) (0,0) with hpm
    by_cases h2 : 1/1000000 < norm2 (pn - pm)
    · have hres : extend_line coords e =
          coords.set (coords.length - 1) (pn + (e / norm2 (pn - pm)) • (pn - pm)) := by
        rw [extend_line, if_neg hg]
        simp only [if_neg h1]
        rw [if_pos h2]
      have hgetn : (extend_line coords e).getD (coords.length - 1) (0, 0) =
          pn + (e / norm2 (pn - pm)) • (pn - pm) := by
        rw [hres, getD_set_eq coords (coords.length - 1) _ _ (by omega)]
      refine ⟨?_, ?_, ⟨fun hcon => absurd hcon h1, fun _ => ?_⟩,
        ⟨fun _ => ?_, fun hcon => absurd h2 hcon⟩⟩
      · rw [hres]
        simp [List.length_set]
      · intro i hi0 hi1
        rw [hres, getD_set_ne coords (coords.length - 1) i _ _ (by omega)]
      · rw [hres, getD_set_ne coords (coords.length - 1) 0 _ _ (by omega)]
      · refine ⟨hgetn, ?_⟩
        rw [hgetn]
        exact extend_move_dist pn (pn - pm) e he (lt_trans (by norm_num) h2)
    · have hres : extend_line coords e = coords := by
        rw [extend_line, if_neg hg]
        simp only [if_neg h1]
        rw [if_neg h2]
      rw [hres]
      exact ⟨rfl, fun i _ _ => rfl,
        ⟨fun hcon => absurd hcon h1, fun _ => rfl⟩,
        ⟨fun hcon => absurd hcon h2, fun _ => rfl⟩⟩

/-- Witness for `C5_extend_line_moves_endpoints`: the two-point polyline
`[(0,0), (1,0)]` extended by 1. -/
theorem C5_extend_line_moves_endpoints_witness :
    2 ≤ ([((0:ℝ), (0:ℝ)), (1, 0)] : List PtR).length ∧ (0:ℝ) ≤ 1 ∧
      (extend_line [((0:ℝ), (0:ℝ)), (1, 0)] 1).length = 2 :=
  ⟨le_refl 2, zero_le_one,
    (C5_extend_line_moves_endpoints [((0:ℝ), (0:ℝ)), (1, 0)] 1
      (le_refl 2) zero_le_one).1.trans rfl⟩

/-- A candidate triangle of the witness piece. -/
def triT : Tri2 := ((0, 0), (1, 0), (0, 1))

/-- A concrete buffered piece with one kept triangle and a square ring. -/
def pieceW : Piece :=
  { triangulation := .ok [triT]
    keep := fun _ => true
    rings := [[(0, 0), (1, 0), (0, 1), (0, 0)]] }

/-- A concrete face wrapping `pieceW`. -/
def faceW : Face := { buffered := .polygon pieceW, area := 1/2 }

/-- Witness for `C10_vertices_at_caps_only` at a concrete mesh triangle. -/
theorem C10_vertices_at_caps_only_witness :
    topTri 3 triT ∈ (generateTriangles 3 [faceW]).1 ∧
      ((topTri 3 triT).1.2.2 = 0 ∨ (topTri 3 triT).1.2.2 = 3) :=
  have hmem : topTri 3 triT ∈ (generateTriangles 3 [faceW]).1 :=
    List.mem_cons_self _ _
  ⟨hmem, C10_vertices_at_caps_only 3 [faceW] (topTri 3 triT) hmem
    (topTri 3 triT).1 (Or.inl rfl)⟩
